import Mathlib

/-!
# Verification of the KalMUD server core (`mudserver.py`)

This file is a shallow embedding, in Lean 4, of the systems core of the
KalMUD repository: the `MudServer` class of `mudserver.py`.  Pure pieces of
the Python code (the Telnet frame parser `_process_sent_data`, the string
splitting helpers) become Lean functions; the stateful, socket-driven pieces
(`update` and its three phases) become explicit state-passing functions over
a `ServerState`, with the outcomes of the raw socket operations supplied by
an `Env` record and Python exceptions modelled by `Except`.

Conventions of the embedding:
* Python strings decoded with latin-1 become Lean `String`s whose characters
  all have code points below 256; `ord(c)` becomes `Char.toNat`.
* `time.time()` is modelled as the per-tick environment value `Env.now : ℤ`.
* Python object semantics for `Client` instances are kept: `heap` holds every
  client object ever created, keyed by its id, while `live` holds the keys of
  the `clients` dict in insertion order.  Mutating a field through an object
  reference (`cl.lastcheck = ...`) updates the heap entry even when the id has
  been deleted from the dict, exactly as in Python.
* Each invocation of `socket.sendall` is recorded in the observation list
  `ServerState.trace` (the id it targets and the bytes passed), so theorems
  can speak about what was sent; `Env.sendOk` tells whether that `sendall`
  raises `socket.error`.
-/

namespace KalMUD

/-! ## Telnet constants (`mudserver.py` lines 59-66) -/

def TN_INTERPRET_AS_COMMAND : Nat := 255

def TN_ARE_YOU_THERE : Nat := 246

def TN_WILL : Nat := 251

def TN_WONT : Nat := 252

def TN_DO : Nat := 253

def TN_DONT : Nat := 254

def TN_SUBNEGOTIATION_START : Nat := 250

def TN_SUBNEGOTIATION_END : Nat := 240

/-! ## The frame parser `_process_sent_data` (lines 327-395) -/

/-- The three reader states `READ_STATE_NORMAL`, `READ_STATE_COMMAND`,
`READ_STATE_SUBNEG` of `_process_sent_data`. -/
inductive ReadState where
  | normal
  | command
  | subneg
deriving DecidableEq

/-- One iteration of the `for c in data` loop of `_process_sent_data`.
The accumulator carries the local `message` (`none` = Python `None`), the
client's `buffer` as a character list, and the local `state`. -/
def readStep (acc : Option (List Char) × List Char × ReadState) (c : Char) :
    Option (List Char) × List Char × ReadState :=
  match acc with
  | (msg, buf, .normal) =>
      if c.toNat = TN_INTERPRET_AS_COMMAND then (msg, buf, .command)
      else if c = '\n' then (some buf, [], .normal)
      else (msg, buf ++ [c], .normal)
  | (msg, buf, .command) =>
      if c.toNat = TN_SUBNEGOTIATION_START then (msg, buf, .subneg)
      else if c.toNat = TN_WILL ∨ c.toNat = TN_WONT ∨ c.toNat = TN_DO ∨ c.toNat = TN_DONT then
        (msg, buf, .command)
      else (msg, buf, .normal)
  | (msg, buf, .subneg) =>
      if c.toNat = TN_SUBNEGOTIATION_END then (msg, buf, .normal)
      else (msg, buf, .subneg)

/-- `_process_sent_data(self, client, data)` as a pure function of the one
client field it touches: it receives the client's current `buffer` and the
freshly received `data`, and returns the returned `message` (`none` for
Python `None`) together with the client's new `buffer`.  The reader state is
local to the call and discarded at the end, as in the source. -/
def process_sent_data (buffer data : String) : Option String × String :=
  let r := data.data.foldl readStep (none, buffer.data, ReadState.normal)
  (r.1.map fun l => ⟨l⟩, ⟨r.2.1⟩)

/-! ### Line-oriented descriptions of the parser output

The following functions describe, independently of the state machine, the
decomposition of a chunk around its newline characters.  They are used to
state what `_process_sent_data` does on chunks free of Telnet control
bytes. -/

/-- Boolean test for "is not a newline", the predicate driving the
line-splitting descriptions below. -/
def notNL (c : Char) : Bool := c ≠ '\n'

/-- The characters of `l` that follow its last `'\n'` (all of `l` when no
newline occurs). -/
def afterLastNewline (l : List Char) : List Char :=
  (l.reverse.takeWhile notNL).reverse

/-- The characters of `l` strictly between its second-to-last `'\n'` and its
last `'\n'`; when `l` has a single newline this is the prefix before it.
This is the last newline-terminated line of the chunk. -/
def lastCompletedLine (l : List Char) : List Char :=
  (((l.reverse.dropWhile notNL).tail).takeWhile notNL).reverse

/-- List-level core of `_process_sent_data`: fold the reader over the chunk,
starting from the client's buffer, and return the final `message` and
buffer (the final reader state is discarded, as in the source). -/
def processList (buffer data : List Char) : Option (List Char) × List Char :=
  let r := data.foldl readStep (none, buffer, ReadState.normal)
  (r.1, r.2.1)

theorem process_sent_data_eq (buffer data : String) :
    process_sent_data buffer data =
      ((processList buffer.data data.data).1.map fun l => (⟨l⟩ : String),
       ⟨(processList buffer.data data.data).2⟩) := rfl

theorem nl_toNat : ('\n').toNat = 10 := rfl

theorem notNL_nl : notNL '\n' = false := by simp [notNL]

theorem notNL_of_ne {c : Char} (h : c ≠ '\n') : notNL c = true := by simp [notNL, h]

theorem afterLastNewline_append_nl (l : List Char) :
    afterLastNewline (l ++ ['\n']) = [] := by
  simp [afterLastNewline, List.takeWhile_cons, notNL_nl]

theorem afterLastNewline_append_ne (l : List Char) (c : Char) (hc : c ≠ '\n') :
    afterLastNewline (l ++ [c]) = afterLastNewline l ++ [c] := by
  simp [afterLastNewline, List.takeWhile_cons, notNL_of_ne hc]

theorem lastCompletedLine_append_ne (l : List Char) (c : Char) (hc : c ≠ '\n') :
    lastCompletedLine (l ++ [c]) = lastCompletedLine l := by
  simp [lastCompletedLine, List.dropWhile_cons, notNL_of_ne hc]

theorem lastCompletedLine_append_nl (l : List Char) :
    lastCompletedLine (l ++ ['\n']) = afterLastNewline l := by
  simp [lastCompletedLine, afterLastNewline, List.dropWhile_cons, notNL_nl]

theorem takeWhile_notNL_append (l t : List Char) (h : '\n' ∈ l) :
    (l ++ t).takeWhile notNL = l.takeWhile notNL := by
  induction l with
  | nil => cases h
  | cons a l ih =>
      by_cases ha : a = '\n'
      · subst ha
        simp [List.takeWhile_cons, notNL_nl]
      · have h' : '\n' ∈ l := by
          rcases List.mem_cons.mp h with h1 | h1
          · exact absurd h1.symm ha
          · exact h1
        rw [List.cons_append, List.takeWhile_cons, List.takeWhile_cons, ih h']

theorem takeWhile_notNL_append_nl (l : List Char) (h : '\n' ∉ l) :
    (l ++ ['\n']).takeWhile notNL = l := by
  induction l with
  | nil => simp [List.takeWhile_cons, notNL_nl]
  | cons a l ih =>
      have ha : a ≠ '\n' := fun heq => h (heq ▸ List.mem_cons_self a l)
      have h' : '\n' ∉ l := fun hx => h (List.mem_cons_of_mem _ hx)
      rw [List.cons_append, List.takeWhile_cons, ih h']
      simp [notNL_of_ne ha]

theorem readStep_normal_nl (msg : Option (List Char)) (buf : List Char) :
    readStep (msg, buf, ReadState.normal) '\n' = (some buf, [], ReadState.normal) := by
  simp [readStep, TN_INTERPRET_AS_COMMAND, nl_toNat]

theorem readStep_normal_other (msg : Option (List Char)) (buf : List Char) (c : Char)
    (h255 : c.toNat ≠ TN_INTERPRET_AS_COMMAND) (hnl : c ≠ '\n') :
    readStep (msg, buf, ReadState.normal) c = (msg, buf ++ [c], ReadState.normal) := by
  simp [readStep, h255, hnl]

/-- On a chunk free of IAC bytes, the reader never leaves `NORMAL`, and the
fold amounts to pure line splitting: the final `message` is the last
newline-terminated segment (reaching into the carried buffer only when the
chunk holds a single newline) and the final buffer is whatever follows the
last newline. -/
theorem foldl_readStep_no_iac :
    ∀ (l : List Char), (∀ c ∈ l, c.toNat ≠ TN_INTERPRET_AS_COMMAND) →
    ∀ (msg : Option (List Char)) (buf : List Char),
    l.foldl readStep (msg, buf, ReadState.normal) =
      ((if '\n' ∈ l then
         some (if 2 ≤ l.count '\n' then lastCompletedLine l
               else buf ++ l.takeWhile notNL)
        else msg),
       (if '\n' ∈ l then afterLastNewline l else buf ++ l),
       ReadState.normal) := by
  intro l
  induction l using List.reverseRecOn with
  | nil =>
      intro h msg buf
      simp
  | append_singleton l' c ih =>
      intro h msg buf
      have h' : ∀ x ∈ l', x.toNat ≠ TN_INTERPRET_AS_COMMAND := fun x hx =>
        h x (List.mem_append_left _ hx)
      have hc255 : c.toNat ≠ TN_INTERPRET_AS_COMMAND :=
        h c (List.mem_append_right _ (List.mem_singleton_self c))
      rw [List.foldl_append, ih h' msg buf]
      simp only [List.foldl_cons, List.foldl_nil]
      by_cases hceq : c = '\n'
      · subst hceq
        have hmem2 : '\n' ∈ l' ++ ['\n'] :=
          List.mem_append_right _ (List.mem_singleton_self '\n')
        by_cases hnl : '\n' ∈ l'
        · have hcount : 1 ≤ l'.count '\n' := List.count_pos_iff.mpr hnl
          have hcount2 : 2 ≤ (l' ++ ['\n']).count '\n' := by
            have hone : List.count '\n' ['\n'] = 1 := by simp
            rw [List.count_append, hone]
            omega
          simp only [if_pos hnl, readStep_normal_nl, if_pos hmem2, if_pos hcount2,
            lastCompletedLine_append_nl, afterLastNewline_append_nl]
        · have hcount0 : l'.count '\n' = 0 := List.count_eq_zero.mpr hnl
          have hcount1 : ¬ 2 ≤ (l' ++ ['\n']).count '\n' := by
            have hone : List.count '\n' ['\n'] = 1 := by simp
            rw [List.count_append, hone, hcount0]
            omega
          simp only [if_neg hnl, readStep_normal_nl, if_pos hmem2, if_neg hcount1,
            takeWhile_notNL_append_nl l' hnl, afterLastNewline_append_nl]
      · have hmem : ('\n' ∈ l' ++ [c]) = ('\n' ∈ l') := by
          simp [List.mem_append, Ne.symm hceq]
        have hcnt : (l' ++ [c]).count '\n' = l'.count '\n' := by
          have hone : List.count '\n' [c] = 0 := by
            simp [List.count_singleton', hceq]
          rw [List.count_append, hone]
          omega
        by_cases hnl : '\n' ∈ l'
        · simp only [if_pos hnl, readStep_normal_other _ _ c hc255 hceq, hmem, hcnt,
            lastCompletedLine_append_ne _ _ hceq, afterLastNewline_append_ne _ _ hceq,
            takeWhile_notNL_append _ _ hnl]
        · simp only [if_neg hnl, readStep_normal_other _ _ c hc255 hceq, hmem,
            List.append_assoc]

/-- The Telnet control byte values named by the wire-level interface
(spec section 6): SE, AYT, SB, WILL, WONT, DO, DONT, IAC. -/
def telnetControlBytes : List Nat :=
  [TN_SUBNEGOTIATION_END, TN_ARE_YOU_THERE, TN_SUBNEGOTIATION_START,
   TN_WILL, TN_WONT, TN_DO, TN_DONT, TN_INTERPRET_AS_COMMAND]

/-! ## Claims C1, C2, C10: behaviour of `_process_sent_data` -/

/-- C1 (counterexample): on the chunk `"a\nb\nc"` with an empty carry-over
buffer, `_process_sent_data` does NOT return the first completed line `"a"`
with the rest of the chunk discarded; it returns the last completed line
`"b"` and keeps `"c"` in the client's buffer. -/
theorem C1_counterexample :
    process_sent_data "" "a\nb\nc" = (some "b", "c") ∧
    process_sent_data "" "a\nb\nc" ≠ (some "a", "") := by
  constructor
  · decide
  · decide

/-- C1 (amended): for every call to `_process_sent_data` whose chunk is free
of IAC bytes and contains two or more newline-terminated lines, the single
line surfaced is the LAST completed line of the chunk (earlier completed
lines are overwritten and lost), and the remainder of the chunk after the
final newline is not discarded: it is kept in the client's buffer. -/
theorem C1_amended (buffer data : String)
    (hiac : ∀ c ∈ data.data, c.toNat ≠ TN_INTERPRET_AS_COMMAND)
    (hlines : 2 ≤ data.data.count '\n') :
    (process_sent_data buffer data).1 = some ⟨lastCompletedLine data.data⟩ ∧
    (process_sent_data buffer data).2 = ⟨afterLastNewline data.data⟩ := by
  have hmem : '\n' ∈ data.data := by
    have hpos : 0 < data.data.count '\n' := by omega
    exact List.count_pos_iff.mp hpos
  have hfold := foldl_readStep_no_iac data.data hiac none buffer.data
  rw [if_pos hmem, if_pos hmem, if_pos hlines] at hfold
  rw [process_sent_data_eq]
  simp [processList, hfold]

/-- C1 (witness): the amended claim evaluated on the carry-over buffer `"q"`
and chunk `"x\ny\nz!"`. -/
theorem C1_amended_witness :
    (process_sent_data "q" "x\ny\nz!").1 = some ⟨lastCompletedLine ("x\ny\nz!").data⟩ ∧
    (process_sent_data "q" "x\ny\nz!").2 = ⟨afterLastNewline ("x\ny\nz!").data⟩ :=
  C1_amended "q" "x\ny\nz!" (by decide) (by decide)

/-- C2 (counterexample): with an empty carry-over buffer, the chunk
`IAC WILL 250 'h' 'i' '\n'` (the option byte is `250`, the subnegotiation
start code) does not surface the completed line `"hi"`: the parser enters
the subnegotiation state and absorbs the rest of the chunk, so no line
completes at all. -/
theorem C2_counterexample :
    processList [] [Char.ofNat TN_INTERPRET_AS_COMMAND, Char.ofNat TN_WILL,
        Char.ofNat TN_SUBNEGOTIATION_START, 'h', 'i', '\n'] = (none, []) ∧
    processList [] [Char.ofNat TN_INTERPRET_AS_COMMAND, Char.ofNat TN_WILL,
        Char.ofNat TN_SUBNEGOTIATION_START, 'h', 'i', '\n'] ≠ (some ['h', 'i'], []) := by
  constructor
  · decide
  · decide

/-- C2 (amended): for every option byte other than 250 (SB) and 251-254
(WILL/WONT/DO/DONT), delivering `IAC WILL <option> "hi\n"` in one chunk with
an empty carry-over buffer yields the completed line `"hi"` and an empty
buffer, and the completed line contains no Telnet control bytes. -/
theorem C2_amended (opt : Char)
    (h250 : opt.toNat ≠ TN_SUBNEGOTIATION_START)
    (h251 : opt.toNat ≠ TN_WILL) (h252 : opt.toNat ≠ TN_WONT)
    (h253 : opt.toNat ≠ TN_DO) (h254 : opt.toNat ≠ TN_DONT) :
    processList [] [Char.ofNat TN_INTERPRET_AS_COMMAND, Char.ofNat TN_WILL,
        opt, 'h', 'i', '\n'] = (some ['h', 'i'], []) ∧
    ∀ c ∈ ['h', 'i'], c.toNat ∉ telnetControlBytes := by
  refine ⟨?_, by decide⟩
  have h1 : readStep (none, [], ReadState.normal) (Char.ofNat TN_INTERPRET_AS_COMMAND)
      = (none, [], ReadState.command) := by decide
  have h2 : readStep (none, [], ReadState.command) (Char.ofNat TN_WILL)
      = (none, [], ReadState.command) := by decide
  have h3 : readStep (none, ([] : List Char), ReadState.command) opt
      = (none, [], ReadState.normal) := by
    simp [readStep, h250, h251, h252, h253, h254]
  have h4 : readStep (none, ([] : List Char), ReadState.normal) 'h'
      = (none, ['h'], ReadState.normal) := by decide
  have h5 : readStep (none, ['h'], ReadState.normal) 'i'
      = (none, ['h', 'i'], ReadState.normal) := by decide
  have h6 : readStep (none, ['h', 'i'], ReadState.normal) '\n'
      = (some ['h', 'i'], [], ReadState.normal) := by decide
  simp only [processList, List.foldl_cons, List.foldl_nil, h1, h2, h3, h4, h5, h6]

/-- C2 (witness): the amended claim evaluated at the option byte 1
(the ECHO option). -/
theorem C2_amended_witness :
    processList [] [Char.ofNat TN_INTERPRET_AS_COMMAND, Char.ofNat TN_WILL,
        Char.ofNat 1, 'h', 'i', '\n'] = (some ['h', 'i'], []) ∧
    ∀ c ∈ ['h', 'i'], c.toNat ∉ telnetControlBytes :=
  C2_amended (Char.ofNat 1) (by decide) (by decide) (by decide) (by decide) (by decide)

/-- C10: for every call to `_process_sent_data` whose chunk contains two or
more newline-terminated lines and no Telnet control bytes, the returned line
is the last completed line in the chunk and the client's buffer afterwards
holds exactly the bytes of the chunk that follow the final newline. -/
theorem C10_last_line_and_tail_kept (buffer data : String)
    (hctl : ∀ c ∈ data.data, c.toNat ∉ telnetControlBytes)
    (hlines : 2 ≤ data.data.count '\n') :
    process_sent_data buffer data =
      (some ⟨lastCompletedLine data.data⟩, ⟨afterLastNewline data.data⟩) := by
  have hiac : ∀ c ∈ data.data, c.toNat ≠ TN_INTERPRET_AS_COMMAND := by
    intro c hc h255
    exact hctl c hc (by rw [h255]; decide)
  have hmem : '\n' ∈ data.data := by
    have hpos : 0 < data.data.count '\n' := by omega
    exact List.count_pos_iff.mp hpos
  have hfold := foldl_readStep_no_iac data.data hiac none buffer.data
  rw [if_pos hmem, if_pos hmem, if_pos hlines] at hfold
  rw [process_sent_data_eq]
  simp [processList, hfold]

/-- C10 (witness): the claim evaluated on carry-over buffer `"zz"` and chunk
`"one\ntwo\nthr"`. -/
theorem C10_witness :
    process_sent_data "zz" "one\ntwo\nthr" =
      (some ⟨lastCompletedLine ("one\ntwo\nthr").data⟩,
       ⟨afterLastNewline ("one\ntwo\nthr").data⟩) :=
  C10_last_line_and_tail_kept "zz" "one\ntwo\nthr" (by decide) (by decide)

/-! ## The server state

`MudServer` holds `clients` (a dict from id to `Client` objects), `nextid`,
`events` and `new_events`.  Python `Client` objects live on a heap and are
mutated through references, so the embedding separates `heap` (every client
object ever constructed, keyed by the id it was registered under) from
`live` (the keys currently present in the `clients` dict, in insertion
order).  Ids are never reused (proved below for reachable states), so an id
uniquely identifies its object.  `trace` is a pure observation log, one
entry per `socket.sendall` invocation, added so theorems can talk about the
bytes written; it mirrors no Python state. -/

/-- Python exceptions relevant to the server core. -/
inductive PyErr where
  | keyError
  | socketError
deriving DecidableEq

deriving instance DecidableEq for Except

/-- An occurrence appended to `new_events`: the tuples
`(EVENT_NEW_PLAYER, id, name)`, `(EVENT_PLAYER_LEFT, id)` and
`(EVENT_COMMAND, id, command, params)`. -/
inductive Ev where
  | newPlayer (id : Nat) (name : String)
  | playerLeft (id : Nat)
  | command (id : Nat) (verb : String) (params : String)
deriving DecidableEq

/-- The fields of the inner `Client` class (the socket handle itself is
represented by the client id inside `Env`). -/
structure Client where
  address : String
  buffer : String
  lastcheck : ℤ
  named : Bool
deriving DecidableEq

/-- The state of a `MudServer` instance. -/
structure ServerState where
  heap : List (Nat × Client)
  live : List Nat
  nextid : Nat
  events : List Ev
  new_events : List Ev
  trace : List (Nat × String)
deriving DecidableEq

/-- The state produced by `__init__` (socket construction aside). -/
def ServerState.init : ServerState :=
  { heap := [], live := [], nextid := 0, events := [], new_events := [], trace := [] }

/-- Outcomes of the raw socket operations during one call to `update`:
the current time, whether `select` reports the listening socket readable,
whether `accept` succeeds (raising `socket.error` otherwise) and the peer
address it yields, whether `sendall` to a given client succeeds, whether
`select` reports a given client's socket readable, and what `recv` on it
returns (`none` meaning it raises `socket.error`). -/
structure Env where
  now : ℤ
  listenReadable : Bool
  acceptOk : Bool
  acceptAddr : String
  sendOk : Nat → Bool
  recvReadable : Nat → Bool
  recvData : Nat → Option String

/-- Reading `self.clients[id]` when `id` is known to be a key; yields
`none` when the id is absent (where Python would raise `KeyError`). -/
def ServerState.dictGet (s : ServerState) (id : Nat) : Option Client :=
  if id ∈ s.live then s.heap.lookup id else none

/-- Mutating the fields of the client OBJECT with the given id through a
reference (`cl.buffer = ...`, `cl.lastcheck = ...`): the heap entry changes
even if the id has been deleted from the `clients` dict. -/
def heapSet (s : ServerState) (id : Nat) (f : Client → Client) : ServerState :=
  { s with heap := s.heap.map fun p => if p.1 = id then (p.1, f p.2) else p }

/-- The dict assignment `self.clients[id] = c`.  When the key is fresh (the
only case arising from reachable states, where `nextid` exceeds every id
ever used) this appends a new object to the heap and the key to the dict. -/
def dictSet (s : ServerState) (id : Nat) (c : Client) : ServerState :=
  { s with
    heap := if id ∈ s.heap.map Prod.fst
            then s.heap.map fun p => if p.1 = id then (p.1, c) else p
            else s.heap ++ [(id, c)],
    live := if id ∈ s.live then s.live else s.live ++ [id] }

/-- `_handle_disconnect` (lines 317-324): `del(self.clients[clid])` raises
`KeyError` when the id is absent; otherwise the entry is removed and a
`PLAYER_LEFT` occurrence is appended to `new_events`. -/
def handle_disconnect (s : ServerState) (clid : Nat) : Except PyErr ServerState :=
  if clid ∈ s.live then
    Except.ok { s with live := s.live.erase clid,
                       new_events := s.new_events ++ [Ev.playerLeft clid] }
  else Except.error PyErr.keyError

/-- `_attempt_send` (lines 195-207): look the client up (a `KeyError` is
caught and ignored), call `sendall` (logged in `trace`), and on
`socket.error` run disconnect handling. -/
def attempt_send (env : Env) (s : ServerState) (clid : Nat) (data : String) :
    Except PyErr ServerState :=
  if clid ∈ s.live then
    let s₁ := { s with trace := s.trace ++ [(clid, data)] }
    if env.sendOk clid then Except.ok s₁
    else handle_disconnect s₁ clid
  else Except.ok s

/-- `send_message` (lines 170-178): append a newline and attempt the send.
The `to` parameter of the source is named `toId` here (`to` is reserved). -/
def send_message (env : Env) (s : ServerState) (toId : Nat) (message : String) :
    Except PyErr ServerState :=
  attempt_send env s toId (message ++ "\n")

/-- `_check_for_new_connections` (lines 210-240): if `select` reports the
listening socket readable, `accept` (uncaught: its `socket.error`
propagates), register the new client under `nextid` with an empty buffer
and the current time, send the name prompt, and increment `nextid`. -/
def check_for_new_connections (env : Env) (s : ServerState) :
    Except PyErr ServerState :=
  if !env.listenReadable then Except.ok s
  else if !env.acceptOk then Except.error PyErr.socketError
  else
    let s₁ := dictSet s s.nextid
      { address := env.acceptAddr, buffer := "", lastcheck := env.now, named := false }
    (attempt_send env s₁ s.nextid "What is your name?\n").map fun s₂ =>
      { s₂ with nextid := s.nextid + 1 }

/-- The 2-byte liveness probe `chr(IAC) + chr(AYT)`. -/
def probeBytes : String :=
  ⟨[Char.ofNat TN_INTERPRET_AS_COMMAND, Char.ofNat TN_ARE_YOU_THERE]⟩

/-- The loop body sequence of `_check_for_disconnected` over the snapshot
`list(self.clients.items())`: skip clients checked less than 5.0 seconds
ago, otherwise probe them and stamp `cl.lastcheck` with the current time
(through the object reference, whether or not the send succeeded). -/
def disc_loop (env : Env) : List Nat → ServerState → Except PyErr ServerState
  | [], s => Except.ok s
  | id :: rest, s =>
    match s.heap.lookup id with
    | none => disc_loop env rest s
    | some cl =>
      if env.now - cl.lastcheck < 5 then disc_loop env rest s
      else do
        let s₁ ← attempt_send env s id probeBytes
        disc_loop env rest (heapSet s₁ id fun c => { c with lastcheck := env.now })

/-- `_check_for_disconnected` (lines 243-259). -/
def check_for_disconnected (env : Env) (s : ServerState) : Except PyErr ServerState :=
  disc_loop env s.live s

/-- The characters removed by Python `str.strip()` with no argument
(ASCII whitespace). -/
def isPySpace (c : Char) : Bool :=
  c = ' ' ∨ c = '\t' ∨ c = '\n' ∨ c = '\r' ∨ c = '\x0b' ∨ c = '\x0c'

/-- Python `message.strip()`. -/
def pyStrip (s : String) : String :=
  ⟨((s.data.dropWhile isPySpace).reverse.dropWhile isPySpace).reverse⟩

/-- Python `command.lower()` (ASCII case folding, applied character by
character; `String.toLower` is avoided only because its `mapAux` loop does
not reduce in the kernel). -/
def pyLower (s : String) : String := ⟨s.data.map Char.toLower⟩

/-- Python `(message.split(" ",1)+["",""])[:2]` as a pair: the text before
the first space and the text after it (empty when there is no space). -/
def splitCommand (t : String) : String × String :=
  let pre := t.data.takeWhile fun c => c ≠ ' '
  let rest := t.data.dropWhile fun c => c ≠ ' '
  (⟨pre⟩, ⟨rest.tail⟩)

/-- One iteration of the `_check_for_messages` loop for the client `id`:
test readability, `recv` (a `socket.error` leads to disconnect handling),
run the frame parser updating `cl.buffer`, and if a non-empty message
completed, append the `NEW_PLAYER` or `COMMAND` occurrence.  The truthiness
test `if message:` skips both `None` and the empty string. -/
def msg_step (env : Env) (s : ServerState) (id : Nat) : Except PyErr ServerState :=
  match s.heap.lookup id with
  | none => Except.ok s
  | some cl =>
    if !env.recvReadable id then Except.ok s
    else
      match env.recvData id with
      | none => handle_disconnect s id
      | some data =>
        let r := process_sent_data cl.buffer data
        let s₁ := heapSet s id fun c => { c with buffer := r.2 }
        match r.1 with
        | none => Except.ok s₁
        | some m =>
          if m = "" then Except.ok s₁
          else
            let t := pyStrip m
            if !cl.named then
              Except.ok (heapSet
                { s₁ with new_events := s₁.new_events ++ [Ev.newPlayer id t] }
                id fun c => { c with named := true })
            else
              let vp := splitCommand t
              Except.ok { s₁ with
                new_events := s₁.new_events ++ [Ev.command id (pyLower vp.1) vp.2] }

/-- The `_check_for_messages` loop over the snapshot of client ids. -/
def msg_loop (env : Env) : List Nat → ServerState → Except PyErr ServerState
  | [], s => Except.ok s
  | id :: rest, s => do
      let s₁ ← msg_step env s id
      msg_loop env rest s₁

/-- `_check_for_messages` (lines 262-314). -/
def check_for_messages (env : Env) (s : ServerState) : Except PyErr ServerState :=
  msg_loop env s.live s

/-- The three checks run by `update` in order. -/
def runChecks (env : Env) (s : ServerState) : Except PyErr ServerState := do
  let s₁ ← check_for_new_connections env s
  let s₂ ← check_for_disconnected env s₁
  check_for_messages env s₂

/-- `update` (lines 105-122): run the three checks, then move `new_events`
into `events` (discarding the previous `events`) and clear `new_events`. -/
def update (env : Env) (s : ServerState) : Except PyErr ServerState :=
  (runChecks env s).map fun s₃ =>
    { s₃ with events := s₃.new_events, new_events := [] }

/-- `get_new_players` (lines 125-137). -/
def get_new_players (s : ServerState) : List (Nat × String) :=
  s.events.filterMap fun ev =>
    match ev with
    | Ev.newPlayer id name => some (id, name)
    | _ => none

/-- `get_disconnected_players` (lines 140-151). -/
def get_disconnected_players (s : ServerState) : List Nat :=
  s.events.filterMap fun ev =>
    match ev with
    | Ev.playerLeft id => some id
    | _ => none

/-- `get_commands` (lines 154-167). -/
def get_commands (s : ServerState) : List (Nat × String × String) :=
  s.events.filterMap fun ev =>
    match ev with
    | Ev.command id verb params => some (id, verb, params)
    | _ => none

/-! ## Computation rules for `Except` (this core version lacks them) -/

theorem exceptBindError {ε α β : Type} (e : ε) (f : α → Except ε β) :
    (Except.error e : Except ε α) >>= f = Except.error e := rfl

theorem exceptBindOk {ε α β : Type} (a : α) (f : α → Except ε β) :
    (Except.ok a : Except ε α) >>= f = f a := rfl

theorem exceptMapError {ε α β : Type} (f : α → β) (e : ε) :
    (Except.error e : Except ε α).map f = Except.error e := rfl

theorem exceptMapOk {ε α β : Type} (f : α → β) (a : α) :
    (Except.ok a : Except ε α).map f = Except.ok (f a) := rfl

/-! ## Frame lemmas: the three checks never read `events`, and only append
to `new_events` -/

/-- Replace the `events` buffer of a state. -/
def setEvents (s : ServerState) (e : List Ev) : ServerState := { s with events := e }

theorem handle_disconnect_setEvents (s : ServerState) (e : List Ev) (clid : Nat) :
    handle_disconnect (setEvents s e) clid =
      (handle_disconnect s clid).map (setEvents · e) := by
  by_cases h : clid ∈ s.live
  · have hl : clid ∈ (setEvents s e).live := h
    rw [handle_disconnect, handle_disconnect, if_pos hl, if_pos h]
    rfl
  · have hl : clid ∉ (setEvents s e).live := h
    rw [handle_disconnect, handle_disconnect, if_neg hl, if_neg h]
    rfl

theorem attempt_send_setEvents (env : Env) (s : ServerState) (e : List Ev)
    (clid : Nat) (d : String) :
    attempt_send env (setEvents s e) clid d =
      (attempt_send env s clid d).map (setEvents · e) := by
  by_cases h : clid ∈ s.live
  · have hl : clid ∈ (setEvents s e).live := h
    rw [attempt_send, attempt_send, if_pos hl, if_pos h]
    by_cases hs : env.sendOk clid
    · rw [if_pos hs, if_pos hs]
      rfl
    · rw [if_neg hs, if_neg hs]
      exact handle_disconnect_setEvents { s with trace := s.trace ++ [(clid, d)] } e clid
  · have hl : clid ∉ (setEvents s e).live := h
    rw [attempt_send, attempt_send, if_neg hl, if_neg h]
    rfl

theorem disc_loop_setEvents (env : Env) (e : List Ev) :
    ∀ (ids : List Nat) (s : ServerState),
    disc_loop env ids (setEvents s e) = (disc_loop env ids s).map (setEvents · e) := by
  intro ids
  induction ids with
  | nil => intro s; rfl
  | cons id rest ih =>
      intro s
      simp only [disc_loop, setEvents]
      split
      · exact ih s
      · split
        · exact ih s
        · show (attempt_send env (setEvents s e) id probeBytes >>= fun s₁ =>
              disc_loop env rest (heapSet s₁ id fun c => { c with lastcheck := env.now }))
            = ((attempt_send env s id probeBytes >>= fun s₁ =>
              disc_loop env rest (heapSet s₁ id fun c => { c with lastcheck := env.now })).map
                (setEvents · e))
          rw [attempt_send_setEvents]
          cases hat : attempt_send env s id probeBytes with
          | error er => rfl
          | ok t =>
              exact ih (heapSet t id fun c => { c with lastcheck := env.now })

theorem msg_step_setEvents (env : Env) (s : ServerState) (e : List Ev) (id : Nat) :
    msg_step env (setEvents s e) id = (msg_step env s id).map (setEvents · e) := by
  simp only [msg_step, setEvents]
  repeat' split
  all_goals first
    | rfl
    | exact handle_disconnect_setEvents s e id

theorem msg_loop_setEvents (env : Env) (e : List Ev) :
    ∀ (ids : List Nat) (s : ServerState),
    msg_loop env ids (setEvents s e) = (msg_loop env ids s).map (setEvents · e) := by
  intro ids
  induction ids with
  | nil => intro s; rfl
  | cons id rest ih =>
      intro s
      show (msg_step env (setEvents s e) id >>= fun s₁ => msg_loop env rest s₁)
        = ((msg_step env s id >>= fun s₁ => msg_loop env rest s₁).map (setEvents · e))
      rw [msg_step_setEvents]
      cases hst : msg_step env s id with
      | error er => rfl
      | ok t =>
          show msg_loop env rest (setEvents t e) = (msg_loop env rest t).map (setEvents · e)
          exact ih t

theorem check_for_new_connections_setEvents (env : Env) (s : ServerState) (e : List Ev) :
    check_for_new_connections env (setEvents s e) =
      (check_for_new_connections env s).map (setEvents · e) := by
  simp only [check_for_new_connections, setEvents]
  split
  · rfl
  · split
    · rfl
    · show ((attempt_send env (setEvents (dictSet s s.nextid
            { address := env.acceptAddr, buffer := "", lastcheck := env.now, named := false }) e)
            s.nextid "What is your name?\n").map fun s₂ => { s₂ with nextid := s.nextid + 1 })
        = (((attempt_send env (dictSet s s.nextid
            { address := env.acceptAddr, buffer := "", lastcheck := env.now, named := false })
            s.nextid "What is your name?\n").map fun s₂ =>
              { s₂ with nextid := s.nextid + 1 }).map (setEvents · e))
      rw [attempt_send_setEvents]
      cases hat : attempt_send env (dictSet s s.nextid
          { address := env.acceptAddr, buffer := "", lastcheck := env.now, named := false })
          s.nextid "What is your name?\n" with
      | error er => rfl
      | ok t => rfl

theorem runChecks_setEvents (env : Env) (s : ServerState) (e : List Ev) :
    runChecks env (setEvents s e) = (runChecks env s).map (setEvents · e) := by
  show (check_for_new_connections env (setEvents s e) >>= fun s₁ =>
      check_for_disconnected env s₁ >>= fun s₂ => check_for_messages env s₂)
    = ((check_for_new_connections env s >>= fun s₁ =>
      check_for_disconnected env s₁ >>= fun s₂ => check_for_messages env s₂).map (setEvents · e))
  rw [check_for_new_connections_setEvents]
  cases h1 : check_for_new_connections env s with
  | error er => rfl
  | ok t1 =>
      show (check_for_disconnected env (setEvents t1 e) >>= fun s₂ =>
          check_for_messages env s₂)
        = ((check_for_disconnected env t1 >>= fun s₂ => check_for_messages env s₂).map
            (setEvents · e))
      rw [check_for_disconnected, check_for_disconnected]
      have hlv : (setEvents t1 e).live = t1.live := rfl
      rw [hlv, disc_loop_setEvents]
      cases h2 : disc_loop env t1.live t1 with
      | error er => rfl
      | ok t2 =>
          show check_for_messages env (setEvents t2 e)
            = (check_for_messages env t2).map (setEvents · e)
          rw [check_for_messages, check_for_messages]
          have hlv2 : (setEvents t2 e).live = t2.live := rfl
          rw [hlv2, msg_loop_setEvents]

theorem handle_disconnect_mono (s : ServerState) (clid : Nat) (t : ServerState)
    (h : handle_disconnect s clid = Except.ok t) :
    ∃ δ, t.new_events = s.new_events ++ δ := by
  by_cases hl : clid ∈ s.live
  · rw [handle_disconnect, if_pos hl] at h
    injection h with h'
    subst h'
    exact ⟨[Ev.playerLeft clid], rfl⟩
  · rw [handle_disconnect, if_neg hl] at h
    simp at h

theorem attempt_send_mono (env : Env) (s : ServerState) (clid : Nat) (d : String)
    (t : ServerState) (h : attempt_send env s clid d = Except.ok t) :
    ∃ δ, t.new_events = s.new_events ++ δ := by
  rw [attempt_send] at h
  split at h
  · split at h
    · injection h with h'
      subst h'
      exact ⟨[], by simp⟩
    · rcases handle_disconnect_mono _ _ _ h with ⟨δ, hδ⟩
      exact ⟨δ, hδ⟩
  · injection h with h'
    subst h'
    exact ⟨[], by simp⟩

theorem disc_loop_mono (env : Env) :
    ∀ (ids : List Nat) (s t : ServerState), disc_loop env ids s = Except.ok t →
    ∃ δ, t.new_events = s.new_events ++ δ := by
  intro ids
  induction ids with
  | nil =>
      intro s t h
      injection h with h'
      subst h'
      exact ⟨[], by simp⟩
  | cons id rest ih =>
      intro s t h
      rw [disc_loop] at h
      split at h
      · exact ih s t h
      · split at h
        · exact ih s t h
        · cases hat : attempt_send env s id probeBytes with
          | error er =>
              rw [hat, exceptBindError] at h
              simp at h
          | ok u =>
              rw [hat, exceptBindOk] at h
              rcases attempt_send_mono env s id probeBytes u hat with ⟨δ₁, h1⟩
              rcases ih (heapSet u id fun c => { c with lastcheck := env.now }) t h with ⟨δ₂, h2⟩
              refine ⟨δ₁ ++ δ₂, ?_⟩
              rw [h2]
              have hu : (heapSet u id fun c => { c with lastcheck := env.now }).new_events
                  = u.new_events := rfl
              rw [hu, h1, List.append_assoc]

theorem msg_step_mono (env : Env) (s : ServerState) (id : Nat) (t : ServerState)
    (h : msg_step env s id = Except.ok t) :
    ∃ δ, t.new_events = s.new_events ++ δ := by
  simp only [msg_step] at h
  repeat' split at h
  · injection h with h'
    subst h'
    exact ⟨[], by simp⟩
  · injection h with h'
    subst h'
    exact ⟨[], by simp⟩
  · exact handle_disconnect_mono _ _ _ h
  · injection h with h'
    subst h'
    exact ⟨[], by simp [heapSet]⟩
  · injection h with h'
    subst h'
    exact ⟨[], by simp [heapSet]⟩
  · injection h with h'
    subst h'
    exact ⟨_, rfl⟩
  · injection h with h'
    subst h'
    exact ⟨_, rfl⟩

theorem msg_loop_mono (env : Env) :
    ∀ (ids : List Nat) (s t : ServerState), msg_loop env ids s = Except.ok t →
    ∃ δ, t.new_events = s.new_events ++ δ := by
  intro ids
  induction ids with
  | nil =>
      intro s t h
      injection h with h'
      subst h'
      exact ⟨[], by simp⟩
  | cons id rest ih =>
      intro s t h
      show ∃ δ, t.new_events = s.new_events ++ δ
      have hb : (msg_step env s id >>= fun s₁ => msg_loop env rest s₁) = Except.ok t := h
      cases hst : msg_step env s id with
      | error er =>
          rw [hst, exceptBindError] at hb
          simp at hb
      | ok u =>
          rw [hst, exceptBindOk] at hb
          rcases msg_step_mono env s id u hst with ⟨δ₁, h1⟩
          rcases ih u t hb with ⟨δ₂, h2⟩
          refine ⟨δ₁ ++ δ₂, ?_⟩
          rw [h2, h1, List.append_assoc]

theorem check_for_new_connections_mono (env : Env) (s t : ServerState)
    (h : check_for_new_connections env s = Except.ok t) :
    ∃ δ, t.new_events = s.new_events ++ δ := by
  simp only [check_for_new_connections] at h
  split at h
  · injection h with h'
    subst h'
    exact ⟨[], by simp⟩
  · split at h
    · simp at h
    · cases hat : attempt_send env (dictSet s s.nextid
          { address := env.acceptAddr, buffer := "", lastcheck := env.now, named := false })
          s.nextid "What is your name?\n" with
      | error er =>
          rw [hat, exceptMapError] at h
          simp at h
      | ok u =>
          rw [hat, exceptMapOk] at h
          injection h with h'
          subst h'
          rcases attempt_send_mono env _ _ _ u hat with ⟨δ, hδ⟩
          exact ⟨δ, hδ⟩

theorem runChecks_mono (env : Env) (s t : ServerState)
    (h : runChecks env s = Except.ok t) :
    ∃ δ, t.new_events = s.new_events ++ δ := by
  have hb : (check_for_new_connections env s >>= fun s₁ =>
      check_for_disconnected env s₁ >>= fun s₂ => check_for_messages env s₂)
      = Except.ok t := h
  cases h1 : check_for_new_connections env s with
  | error er =>
      rw [h1, exceptBindError] at hb
      simp at hb
  | ok t1 =>
      rw [h1, exceptBindOk] at hb
      cases h2 : check_for_disconnected env t1 with
      | error er =>
          rw [h2, exceptBindError] at hb
          simp at hb
      | ok t2 =>
          rw [h2, exceptBindOk] at hb
          rcases check_for_new_connections_mono env s t1 h1 with ⟨δ₁, hδ₁⟩
          rcases disc_loop_mono env t1.live t1 t2 h2 with ⟨δ₂, hδ₂⟩
          rcases msg_loop_mono env t2.live t2 t hb with ⟨δ₃, hδ₃⟩
          refine ⟨δ₁ ++ (δ₂ ++ δ₃), ?_⟩
          rw [hδ₃, hδ₂, hδ₁, List.append_assoc, List.append_assoc]

/-! ## What was sent to a given client -/

/-- The data arguments of every `sendall` invocation targeting client `id`,
in order, extracted from the trace. -/
def sentTo (id : Nat) (tr : List (Nat × String)) : List String :=
  tr.filterMap fun p => if p.1 = id then some p.2 else none

theorem sentTo_append_self (id : Nat) (d : String) (tr : List (Nat × String)) :
    sentTo id (tr ++ [(id, d)]) = sentTo id tr ++ [d] := by
  simp [sentTo, List.filterMap_append]

theorem sentTo_append_ne (id j : Nat) (d : String) (tr : List (Nat × String))
    (h : j ≠ id) : sentTo id (tr ++ [(j, d)]) = sentTo id tr := by
  simp [sentTo, List.filterMap_append, h]

theorem lookup_map_ite (j : Nat) (f : Client → Client) :
    ∀ (l : List (Nat × Client)) (id : Nat),
    (l.map fun p => if p.1 = j then (p.1, f p.2) else p).lookup id
      = if id = j then (l.lookup id).map f else l.lookup id := by
  intro l
  induction l with
  | nil => intro id; simp
  | cons p rest ih =>
      intro id
      obtain ⟨k, v⟩ := p
      by_cases hk : k = j
      · subst hk
        by_cases hid : id = k
        · subst hid
          simp [List.lookup_cons]
        · have hbeq : (id == k) = false := beq_eq_false_iff_ne.mpr hid
          simp [List.lookup_cons, hbeq, ih id, hid]
      · by_cases hid : id = k
        · subst hid
          have hj : ¬ id = j := fun hx => hk hx
          simp [List.lookup_cons, hk, hj]
        · have hbeq : (id == k) = false := beq_eq_false_iff_ne.mpr hid
          simp [List.lookup_cons, hk, hbeq, ih id]

theorem heapSet_lookup_self (s : ServerState) (id : Nat) (f : Client → Client) :
    (heapSet s id f).heap.lookup id = (s.heap.lookup id).map f := by
  show (s.heap.map fun p => if p.1 = id then (p.1, f p.2) else p).lookup id = _
  rw [lookup_map_ite, if_pos rfl]

theorem heapSet_lookup_ne (s : ServerState) (j : Nat) (f : Client → Client)
    (id : Nat) (h : id ≠ j) :
    (heapSet s j f).heap.lookup id = s.heap.lookup id := by
  show (s.heap.map fun p => if p.1 = j then (p.1, f p.2) else p).lookup id = _
  rw [lookup_map_ite, if_neg h]

/-! ## Behaviour of `_attempt_send` -/

/-- `_attempt_send` never raises: the dict `KeyError` is caught and a
`socket.error` from `sendall` is resolved through disconnect handling (which
always succeeds there, since the id was just looked up). -/
theorem attempt_send_ok (env : Env) (s : ServerState) (clid : Nat) (d : String) :
    ∃ t, attempt_send env s clid d = Except.ok t := by
  rw [attempt_send]
  split
  · split
    · exact ⟨_, rfl⟩
    · rename_i hlive hsend
      rw [handle_disconnect, if_pos hlive]
      exact ⟨_, rfl⟩
  · exact ⟨_, rfl⟩

theorem attempt_send_spec_self (env : Env) (s : ServerState) (clid : Nat)
    (d : String) (u : ServerState) (hlive : clid ∈ s.live)
    (h : attempt_send env s clid d = Except.ok u) :
    u.heap = s.heap ∧ sentTo clid u.trace = sentTo clid s.trace ++ [d] := by
  rw [attempt_send, if_pos hlive] at h
  split at h
  · injection h with h'
    subst h'
    exact ⟨rfl, sentTo_append_self clid d s.trace⟩
  · rw [handle_disconnect, if_pos hlive] at h
    injection h with h'
    subst h'
    exact ⟨rfl, sentTo_append_self clid d s.trace⟩

theorem attempt_send_spec_ne (env : Env) (s : ServerState) (j : Nat)
    (d : String) (u : ServerState) (id : Nat) (hne : j ≠ id)
    (h : attempt_send env s j d = Except.ok u) :
    u.heap = s.heap ∧ sentTo id u.trace = sentTo id s.trace ∧
    (id ∈ s.live → id ∈ u.live) := by
  rw [attempt_send] at h
  split at h
  · split at h
    · injection h with h'
      subst h'
      exact ⟨rfl, sentTo_append_ne id j d s.trace hne, fun hm => hm⟩
    · rename_i hlive hsend
      rw [handle_disconnect, if_pos hlive] at h
      injection h with h'
      subst h'
      refine ⟨rfl, sentTo_append_ne id j d s.trace hne, fun hm => ?_⟩
      exact (List.mem_erase_of_ne (Ne.symm hne)).mpr hm
  · injection h with h'
    subst h'
    exact ⟨rfl, rfl, fun hm => hm⟩

/-! ## The probe loop, client by client -/

/-- Processing a snapshot that does not contain `id` leaves client `id`'s
object, the bytes sent to it, and its registry membership unchanged. -/
theorem disc_loop_frame (env : Env) (id : Nat) :
    ∀ (ids : List Nat) (s s' : ServerState), id ∉ ids →
    disc_loop env ids s = Except.ok s' →
    s'.heap.lookup id = s.heap.lookup id ∧
    sentTo id s'.trace = sentTo id s.trace ∧
    (id ∈ s.live → id ∈ s'.live) := by
  intro ids
  induction ids with
  | nil =>
      intro s s' hmem h
      injection h with h'
      subst h'
      exact ⟨rfl, rfl, fun hm => hm⟩
  | cons j rest ih =>
      intro s s' hmem h
      have hj : j ≠ id := fun hx => hmem (hx ▸ List.mem_cons_self j rest)
      have hrest : id ∉ rest := fun hx => hmem (List.mem_cons_of_mem _ hx)
      rw [disc_loop] at h
      split at h
      · exact ih s s' hrest h
      · split at h
        · exact ih s s' hrest h
        · rcases attempt_send_ok env s j probeBytes with ⟨u, hu⟩
          rw [hu, exceptBindOk] at h
          rcases attempt_send_spec_ne env s j probeBytes u id hj hu with ⟨hheap, htr, hlv⟩
          rcases ih _ s' hrest h with ⟨ih1, ih2, ih3⟩
          refine ⟨?_, ?_, ?_⟩
          · rw [ih1]
            have : (heapSet u j fun c => { c with lastcheck := env.now }).heap.lookup id
                = u.heap.lookup id := heapSet_lookup_ne u j _ id (Ne.symm hj)
            rw [this, hheap]
          · rw [ih2]
            show sentTo id u.trace = sentTo id s.trace
            exact htr
          · intro hm
            exact ih3 (hlv hm)

/-- Processing a snapshot containing `id` exactly once, while `id` is
registered with object `cl`: if the probe interval has not elapsed the
client object and the bytes sent to it are untouched; otherwise exactly the
probe is sent to it and its `lastcheck` field is stamped with the current
time, whether or not the send succeeded. -/
theorem disc_loop_probe (env : Env) (id : Nat) (cl : Client) :
    ∀ (ids : List Nat) (s s' : ServerState), ids.Nodup → id ∈ ids →
    id ∈ s.live → s.heap.lookup id = some cl →
    disc_loop env ids s = Except.ok s' →
    (if env.now - cl.lastcheck < 5 then
      s'.heap.lookup id = some cl ∧ sentTo id s'.trace = sentTo id s.trace
    else
      s'.heap.lookup id = some { cl with lastcheck := env.now } ∧
      sentTo id s'.trace = sentTo id s.trace ++ [probeBytes]) := by
  intro ids
  induction ids with
  | nil =>
      intro s s' hnd hmem
      cases hmem
  | cons j rest ih =>
      intro s s' hnd hmem hlive hcl h
      by_cases hj : j = id
      · subst hj
        have hrest : j ∉ rest := (List.nodup_cons.mp hnd).1
        rw [disc_loop] at h
        simp only [hcl] at h
        split at h
        · rename_i ht
          rw [if_pos ht]
          rcases disc_loop_frame env j rest s s' hrest h with ⟨h1, h2, h3⟩
          exact ⟨h1.trans hcl, h2⟩
        · rename_i ht
          rw [if_neg ht]
          rcases attempt_send_ok env s j probeBytes with ⟨u, hu⟩
          rw [hu, exceptBindOk] at h
          rcases attempt_send_spec_self env s j probeBytes u hlive hu with ⟨hheap, htr⟩
          rcases disc_loop_frame env j rest _ s' hrest h with ⟨h1, h2, h3⟩
          constructor
          · rw [h1, heapSet_lookup_self, hheap, hcl]
            rfl
          · rw [h2]
            show sentTo j u.trace = sentTo j s.trace ++ [probeBytes]
            exact htr
      · have hrest : id ∈ rest := by
          rcases List.mem_cons.mp hmem with hx | hx
          · exact absurd hx.symm hj
          · exact hx
        have hnd' : rest.Nodup := (List.nodup_cons.mp hnd).2
        rw [disc_loop] at h
        split at h
        · exact ih s s' hnd' hrest hlive hcl h
        · split at h
          · exact ih s s' hnd' hrest hlive hcl h
          · rcases attempt_send_ok env s j probeBytes with ⟨u, hu⟩
            rw [hu, exceptBindOk] at h
            rcases attempt_send_spec_ne env s j probeBytes u id hj hu with ⟨hheap, htr, hlv⟩
            have hlive' : id ∈ (heapSet u j fun c => { c with lastcheck := env.now }).live :=
              hlv hlive
            have hcl' : (heapSet u j fun c =>
                { c with lastcheck := env.now }).heap.lookup id = some cl := by
              rw [heapSet_lookup_ne u j _ id (Ne.symm hj), hheap, hcl]
            have hind := ih _ s' hnd' hrest hlive' hcl' h
            split at hind
            · rename_i ht
              rw [if_pos ht]
              rcases hind with ⟨h1, h2⟩
              refine ⟨h1, ?_⟩
              rw [h2]
              show sentTo id u.trace = sentTo id s.trace
              exact htr
            · rename_i ht
              rw [if_neg ht]
              rcases hind with ⟨h1, h2⟩
              refine ⟨h1, ?_⟩
              rw [h2]
              show sentTo id u.trace ++ [probeBytes] = sentTo id s.trace ++ [probeBytes]
              rw [htr]

/-! ## Id assignment: invariants of the client registry -/

/-- Every id ever assigned to a client object (the heap keys; the heap only
grows, so this is the set of ids handed out since construction). -/
def assignedIds (s : ServerState) : List Nat := s.heap.map Prod.fst

/-- The registry invariant: every assigned id is below `nextid`, assigned
ids are pairwise distinct (never reused), the dict keys are distinct, and
every dict key was assigned. -/
def Inv (s : ServerState) : Prop :=
  (∀ id ∈ assignedIds s, id < s.nextid) ∧
  (assignedIds s).Nodup ∧
  s.live.Nodup ∧
  (∀ id ∈ s.live, id ∈ assignedIds s)

/-- The server states reachable from construction by completed `update`
calls.  (A tick aborted by an accept failure mutates nothing — `accept` is
the first effect of the tick — so failed updates add no new states.) -/
inductive Reachable : ServerState → Prop where
  | init : Reachable ServerState.init
  | step (s s' : ServerState) (env : Env) :
      Reachable s → update env s = Except.ok s' → Reachable s'

theorem map_fst_ite (l : List (Nat × Client)) (id : Nat) (f : Client → Client) :
    (l.map fun p => if p.1 = id then (p.1, f p.2) else p).map Prod.fst
      = l.map Prod.fst := by
  rw [List.map_map]
  congr 1
  funext p
  by_cases hp : p.1 = id <;> simp [hp]

theorem heapSet_assigned (s : ServerState) (id : Nat) (f : Client → Client) :
    assignedIds (heapSet s id f) = assignedIds s := by
  show (s.heap.map fun p => if p.1 = id then (p.1, f p.2) else p).map Prod.fst
    = s.heap.map Prod.fst
  exact map_fst_ite s.heap id f

theorem handle_disconnect_spec (s : ServerState) (clid : Nat) (t : ServerState)
    (h : handle_disconnect s clid = Except.ok t) :
    t.heap = s.heap ∧ t.nextid = s.nextid ∧ t.live = s.live.erase clid := by
  rw [handle_disconnect] at h
  split at h
  · injection h with h'
    subst h'
    exact ⟨rfl, rfl, rfl⟩
  · simp at h

theorem attempt_send_spec (env : Env) (s : ServerState) (clid : Nat) (d : String)
    (t : ServerState) (h : attempt_send env s clid d = Except.ok t) :
    t.heap = s.heap ∧ t.nextid = s.nextid ∧
    (t.live = s.live ∨ t.live = s.live.erase clid) := by
  rw [attempt_send] at h
  split at h
  · split at h
    · injection h with h'
      subst h'
      exact ⟨rfl, rfl, Or.inl rfl⟩
    · rcases handle_disconnect_spec _ _ _ h with ⟨h1, h2, h3⟩
      exact ⟨h1, h2, Or.inr h3⟩
  · injection h with h'
    subst h'
    exact ⟨rfl, rfl, Or.inl rfl⟩

theorem disc_loop_spec (env : Env) :
    ∀ (ids : List Nat) (s t : ServerState), disc_loop env ids s = Except.ok t →
    assignedIds t = assignedIds s ∧ t.nextid = s.nextid ∧
    (∀ x ∈ t.live, x ∈ s.live) ∧ (s.live.Nodup → t.live.Nodup) := by
  intro ids
  induction ids with
  | nil =>
      intro s t h
      injection h with h'
      subst h'
      exact ⟨rfl, rfl, fun x hx => hx, fun hn => hn⟩
  | cons j rest ih =>
      intro s t h
      rw [disc_loop] at h
      split at h
      · exact ih s t h
      · split at h
        · exact ih s t h
        · rcases attempt_send_ok env s j probeBytes with ⟨u, hu⟩
          rw [hu, exceptBindOk] at h
          rcases attempt_send_spec env s j probeBytes u hu with ⟨h1, h2, h3⟩
          rcases ih _ t h with ⟨i1, i2, i3, i4⟩
          have hassign : assignedIds (heapSet u j fun c => { c with lastcheck := env.now })
              = assignedIds s := by
            rw [heapSet_assigned]
            show u.heap.map Prod.fst = s.heap.map Prod.fst
            rw [h1]
          refine ⟨i1.trans hassign, i2.trans h2, ?_, ?_⟩
          · intro x hx
            have hxu : x ∈ u.live := i3 x hx
            rcases h3 with h3 | h3
            · exact h3 ▸ hxu
            · exact List.mem_of_mem_erase (h3 ▸ hxu)
          · intro hn
            apply i4
            show u.live.Nodup
            rcases h3 with h3 | h3
            · exact h3 ▸ hn
            · exact h3 ▸ hn.erase j

theorem msg_step_spec (env : Env) (s : ServerState) (id : Nat) (t : ServerState)
    (h : msg_step env s id = Except.ok t) :
    assignedIds t = assignedIds s ∧ t.nextid = s.nextid ∧
    (t.live = s.live ∨ t.live = s.live.erase id) := by
  simp only [msg_step] at h
  repeat' split at h
  · injection h with h'
    subst h'
    exact ⟨rfl, rfl, Or.inl rfl⟩
  · injection h with h'
    subst h'
    exact ⟨rfl, rfl, Or.inl rfl⟩
  · rcases handle_disconnect_spec _ _ _ h with ⟨h1, h2, h3⟩
    exact ⟨congrArg (List.map Prod.fst) h1, h2, Or.inr h3⟩
  · injection h with h'
    subst h'
    refine ⟨?_, rfl, Or.inl rfl⟩
    simp [assignedIds, heapSet]
    intro a b hmem
    by_cases hab : a = id <;> simp [hab]
  · injection h with h'
    subst h'
    refine ⟨?_, rfl, Or.inl rfl⟩
    simp [assignedIds, heapSet]
    intro a b hmem
    by_cases hab : a = id <;> simp [hab]
  · injection h with h'
    subst h'
    refine ⟨?_, rfl, Or.inl rfl⟩
    simp [assignedIds, heapSet]
    intro a b hmem
    by_cases hab : a = id <;> simp [hab]
  · injection h with h'
    subst h'
    refine ⟨?_, rfl, Or.inl rfl⟩
    simp [assignedIds, heapSet]
    intro a b hmem
    by_cases hab : a = id <;> simp [hab]

theorem msg_loop_spec (env : Env) :
    ∀ (ids : List Nat) (s t : ServerState), msg_loop env ids s = Except.ok t →
    assignedIds t = assignedIds s ∧ t.nextid = s.nextid ∧
    (∀ x ∈ t.live, x ∈ s.live) ∧ (s.live.Nodup → t.live.Nodup) := by
  intro ids
  induction ids with
  | nil =>
      intro s t h
      injection h with h'
      subst h'
      exact ⟨rfl, rfl, fun x hx => hx, fun hn => hn⟩
  | cons j rest ih =>
      intro s t h
      have hb : (msg_step env s j >>= fun s₁ => msg_loop env rest s₁) = Except.ok t := h
      cases hst : msg_step env s j with
      | error er =>
          rw [hst, exceptBindError] at hb
          simp at hb
      | ok u =>
          rw [hst, exceptBindOk] at hb
          rcases msg_step_spec env s j u hst with ⟨h1, h2, h3⟩
          rcases ih u t hb with ⟨i1, i2, i3, i4⟩
          refine ⟨i1.trans h1, i2.trans h2, ?_, ?_⟩
          · intro x hx
            have hxu : x ∈ u.live := i3 x hx
            rcases h3 with h3 | h3
            · exact h3 ▸ hxu
            · exact List.mem_of_mem_erase (h3 ▸ hxu)
          · intro hn
            apply i4
            rcases h3 with h3 | h3
            · exact h3 ▸ hn
            · exact h3 ▸ hn.erase j

theorem check_for_new_connections_spec (env : Env) (s t : ServerState)
    (hfresh : s.nextid ∉ assignedIds s)
    (hlivesub : ∀ id ∈ s.live, id ∈ assignedIds s)
    (h : check_for_new_connections env s = Except.ok t) :
    (assignedIds t = assignedIds s ∧ t.nextid = s.nextid ∧ t.live = s.live) ∨
    (assignedIds t = assignedIds s ++ [s.nextid] ∧ t.nextid = s.nextid + 1 ∧
      (t.live = s.live ++ [s.nextid] ∨ t.live = (s.live ++ [s.nextid]).erase s.nextid)) := by
  have hni : s.nextid ∉ s.heap.map Prod.fst := hfresh
  have hnl : s.nextid ∉ s.live := fun hx => hfresh (hlivesub _ hx)
  simp only [check_for_new_connections] at h
  split at h
  · injection h with h'
    subst h'
    exact Or.inl ⟨rfl, rfl, rfl⟩
  · split at h
    · simp at h
    · rw [dictSet, if_neg hni, if_neg hnl] at h
      rcases attempt_send_ok env
          { s with
            heap := s.heap ++ [(s.nextid,
              { address := env.acceptAddr, buffer := "", lastcheck := env.now,
                named := false })],
            live := s.live ++ [s.nextid] }
          s.nextid "What is your name?\n" with ⟨u, hu⟩
      rw [hu, exceptMapOk] at h
      injection h with h'
      subst h'
      rcases attempt_send_spec env _ _ _ u hu with ⟨h1, h2, h3⟩
      refine Or.inr ⟨?_, rfl, ?_⟩
      · show u.heap.map Prod.fst = s.heap.map Prod.fst ++ [s.nextid]
        rw [h1]
        simp [List.map_append]
      · rcases h3 with h3 | h3
        · exact Or.inl h3
        · exact Or.inr h3

/-- One completed `update` call preserves the registry invariant, never
removes an id from the assigned set, and assigns (at most) the single fresh
id `s.nextid`, which exceeds every previously assigned id. -/
theorem update_inv (env : Env) (s t : ServerState) (hinv : Inv s)
    (h : update env s = Except.ok t) :
    Inv t ∧ (∀ id ∈ assignedIds s, id ∈ assignedIds t) ∧
    (∀ id ∈ assignedIds t, id ∉ assignedIds s →
      (∀ j ∈ assignedIds s, j < id) ∧ id = s.nextid) := by
  obtain ⟨hbound, hnda, hndl, hsub⟩ := hinv
  have hfresh : s.nextid ∉ assignedIds s := fun hx =>
    absurd (hbound _ hx) (by omega)
  have hnl : s.nextid ∉ s.live := fun hx => hfresh (hsub _ hx)
  cases hrc : runChecks env s with
  | error er =>
      rw [update, hrc, exceptMapError] at h
      simp at h
  | ok w =>
      rw [update, hrc, exceptMapOk] at h
      injection h with h'
      subst h'
      have hb : (check_for_new_connections env s >>= fun s₁ =>
          check_for_disconnected env s₁ >>= fun s₂ => check_for_messages env s₂)
          = Except.ok w := hrc
      cases h1 : check_for_new_connections env s with
      | error er =>
          rw [h1, exceptBindError] at hb
          simp at hb
      | ok t1 =>
          rw [h1, exceptBindOk] at hb
          cases h2 : check_for_disconnected env t1 with
          | error er =>
              rw [h2, exceptBindError] at hb
              simp at hb
          | ok t2 =>
              rw [h2, exceptBindOk] at hb
              rcases check_for_new_connections_spec env s t1 hfresh hsub h1 with
                ⟨c1, c2, c3⟩ | ⟨c1, c2, c3⟩
              · -- no connection accepted
                rcases disc_loop_spec env t1.live t1 t2 h2 with ⟨d1, d2, d3, d4⟩
                rcases msg_loop_spec env t2.live t2 w hb with ⟨m1, m2, m3, m4⟩
                have ha : assignedIds w = assignedIds s := by rw [m1, d1, c1]
                have hn : w.nextid = s.nextid := by rw [m2, d2, c2]
                refine ⟨⟨?_, ?_, ?_, ?_⟩, ?_, ?_⟩
                · intro id hid
                  show id < w.nextid
                  rw [hn]
                  exact hbound id (by rw [← ha]; exact hid)
                · show (assignedIds { w with events := w.new_events, new_events := [] }).Nodup
                  show (assignedIds w).Nodup
                  rw [ha]
                  exact hnda
                · show w.live.Nodup
                  exact m4 (d4 (c3 ▸ hndl))
                · intro id hid
                  have : id ∈ t1.live := d3 id (m3 id hid)
                  have : id ∈ s.live := c3 ▸ this
                  show id ∈ assignedIds w
                  rw [ha]
                  exact hsub id this
                · intro id hid
                  show id ∈ assignedIds w
                  rw [ha]
                  exact hid
                · intro id hid hnot
                  exact absurd (by rw [← ha]; exact hid) hnot
              · -- the fresh id s.nextid was assigned
                rcases disc_loop_spec env t1.live t1 t2 h2 with ⟨d1, d2, d3, d4⟩
                rcases msg_loop_spec env t2.live t2 w hb with ⟨m1, m2, m3, m4⟩
                have ha : assignedIds w = assignedIds s ++ [s.nextid] := by
                  rw [m1, d1, c1]
                have hn : w.nextid = s.nextid + 1 := by rw [m2, d2, c2]
                have hlive1 : t1.live.Nodup := by
                  rcases c3 with c3 | c3
                  · rw [c3]
                    exact List.Nodup.append hndl (List.nodup_singleton _)
                      (by
                        intro a ha1 ha2
                        rw [List.mem_singleton] at ha2
                        subst ha2
                        exact hnl ha1)
                  · rw [c3]
                    exact (List.Nodup.append hndl (List.nodup_singleton _)
                      (by
                        intro a ha1 ha2
                        rw [List.mem_singleton] at ha2
                        subst ha2
                        exact hnl ha1)).erase _
                refine ⟨⟨?_, ?_, ?_, ?_⟩, ?_, ?_⟩
                · intro id hid
                  show id < w.nextid
                  rw [hn]
                  have : id ∈ assignedIds s ++ [s.nextid] := by rw [← ha]; exact hid
                  rcases List.mem_append.mp this with hx | hx
                  · have := hbound id hx
                    omega
                  · rw [List.mem_singleton] at hx
                    omega
                · show (assignedIds w).Nodup
                  rw [ha]
                  exact List.Nodup.append hnda (List.nodup_singleton _)
                    (by
                      intro a ha1 ha2
                      rw [List.mem_singleton] at ha2
                      subst ha2
                      exact hfresh ha1)
                · show w.live.Nodup
                  exact m4 (d4 hlive1)
                · intro id hid
                  have hid2 : id ∈ t1.live := d3 id (m3 id hid)
                  have hid3 : id ∈ s.live ++ [s.nextid] := by
                    rcases c3 with c3 | c3
                    · exact c3 ▸ hid2
                    · exact List.mem_of_mem_erase (c3 ▸ hid2)
                  show id ∈ assignedIds w
                  rw [ha]
                  rcases List.mem_append.mp hid3 with hx | hx
                  · exact List.mem_append_left _ (hsub id hx)
                  · exact List.mem_append_right _ hx
                · intro id hid
                  show id ∈ assignedIds w
                  rw [ha]
                  exact List.mem_append_left _ hid
                · intro id hid hnot
                  have : id ∈ assignedIds s ++ [s.nextid] := by rw [← ha]; exact hid
                  rcases List.mem_append.mp this with hx | hx
                  · exact absurd hx hnot
                  · rw [List.mem_singleton] at hx
                    subst hx
                    exact ⟨fun j hj => hbound j hj, rfl⟩

/-! ## Concrete fixtures used by counterexamples and witnesses -/

/-- A quiet environment: nothing readable, accepts would succeed, sends
succeed, reads raise. -/
def baseEnv : Env where
  now := 0
  listenReadable := false
  acceptOk := true
  acceptAddr := "peer"
  sendOk := fun _ => true
  recvReadable := fun _ => false
  recvData := fun _ => none

/-- A client that has already given its name, with an empty buffer. -/
def clientNamed : Client where
  address := "addr"
  buffer := ""
  lastcheck := 0
  named := true

/-- A server with the single named client 0 registered. -/
def oneClientState : ServerState where
  heap := [(0, clientNamed)]
  live := [0]
  nextid := 1
  events := []
  new_events := []
  trace := []

/-! ## Claim C3: accept failures -/

/-- C3 (counterexample): with the listening socket reported readable but
`accept` raising (no connection actually ready), `update` does not complete
normally: the `socket.error` propagates to the caller, because
`_check_for_new_connections` wraps no handler around `accept`. -/
theorem C3_counterexample :
    update { baseEnv with listenReadable := true, acceptOk := false }
        ServerState.init = Except.error PyErr.socketError := by
  decide

/-- C3 (amended): whenever the readiness check reports the listening socket
readable and the subsequent `accept` fails, the failure is NOT swallowed:
the exception escapes `update`, aborting the tick, from every server
state. -/
theorem C3_amended (env : Env) (s : ServerState)
    (hread : env.listenReadable = true) (hacc : env.acceptOk = false) :
    update env s = Except.error PyErr.socketError := by
  simp [update, runChecks, check_for_new_connections, hread, hacc,
    exceptBindError, exceptMapError]

/-- C3 (witness): the amended claim evaluated at the failing-accept
environment and the initial state. -/
theorem C3_amended_witness :
    update { baseEnv with listenReadable := true, acceptOk := false }
        ServerState.init = Except.error PyErr.socketError :=
  C3_amended { baseEnv with listenReadable := true, acceptOk := false }
    ServerState.init rfl rfl

/-! ## Claim C4: removing an absent id -/

/-- C4 (counterexample): `_handle_disconnect` on an id that is not in the
registry is not a silent no-op: `del(self.clients[clid])` raises
`KeyError` (here, on the empty initial registry and id 0). -/
theorem C4_counterexample :
    handle_disconnect ServerState.init 0 = Except.error PyErr.keyError := by
  decide

/-- C4 (amended): for every client id not present in the registry,
`_handle_disconnect` raises `KeyError`; no state mutation happens (the
deletion fails before the event append), so the registry and event buffers
are left unchanged, but the call does not return normally. -/
theorem C4_amended (s : ServerState) (clid : Nat) (h : clid ∉ s.live) :
    handle_disconnect s clid = Except.error PyErr.keyError := by
  simp [handle_disconnect, h]

/-- C4 (witness): the amended claim evaluated on the empty registry. -/
theorem C4_amended_witness :
    handle_disconnect ServerState.init 0 = Except.error PyErr.keyError :=
  C4_amended ServerState.init 0 (by decide)

/-! ## Claim C7: liveness probes -/

/-- An environment whose clock has advanced past the probe interval and in
which every send fails. -/
def staleEnv : Env :=
  { baseEnv with now := 10, sendOk := fun _ => false }

/-- The state `_check_for_disconnected staleEnv oneClientState` ends in: the
probe was attempted, the send failure removed client 0 from the registry and
logged a `PLAYER_LEFT` occurrence, and the client object's `lastcheck` was
stamped with the current time all the same. -/
def probedState : ServerState where
  heap := [(0, { clientNamed with lastcheck := 10 })]
  live := []
  nextid := 1
  events := []
  new_events := [Ev.playerLeft 0]
  trace := [(0, probeBytes)]

/-- C7: for every registered client, if less than 5.0 seconds have elapsed
since its `lastcheck`, no bytes at all are sent to it by the probe phase and
its object is untouched; otherwise exactly one 2-byte probe (IAC AYT, bytes
255 246) is sent to it and its `lastcheck` is updated to the current time —
whether the send succeeds or fails (on failure the client leaves the
registry, but the object's timestamp is still written). -/
theorem C7_liveness_probe (env : Env) (s : ServerState) (id : Nat) (cl : Client)
    (s' : ServerState) (hnodup : s.live.Nodup) (hlive : id ∈ s.live)
    (hcl : s.heap.lookup id = some cl)
    (hrun : check_for_disconnected env s = Except.ok s') :
    if env.now - cl.lastcheck < 5 then
      s'.heap.lookup id = some cl ∧ sentTo id s'.trace = sentTo id s.trace
    else
      s'.heap.lookup id = some { cl with lastcheck := env.now } ∧
      sentTo id s'.trace = sentTo id s.trace ++ [probeBytes] := by
  exact disc_loop_probe env id cl s.live s s' hnodup hlive hlive hcl hrun

/-- C7 (witness): the claim evaluated on the one-client fixture with a stale
timestamp and failing sends: the probe is recorded and `lastcheck` is
updated even though the send failed and the client was dropped. -/
theorem C7_witness :
    if staleEnv.now - clientNamed.lastcheck < 5 then
      probedState.heap.lookup 0 = some clientNamed ∧
      sentTo 0 probedState.trace = sentTo 0 oneClientState.trace
    else
      probedState.heap.lookup 0 = some { clientNamed with lastcheck := staleEnv.now } ∧
      sentTo 0 probedState.trace = sentTo 0 oneClientState.trace ++ [probeBytes] :=
  C7_liveness_probe staleEnv oneClientState 0 clientNamed probedState
    (by decide) (by decide) (by decide) (by decide)

/-! ## Claim C9: id assignment -/

theorem reachable_inv : ∀ (s : ServerState), Reachable s → Inv s := by
  intro s h
  induction h with
  | init =>
      refine ⟨?_, ?_, ?_, ?_⟩ <;> simp [assignedIds, ServerState.init]
  | step s s' env hr hupd ih =>
      exact (update_inv env s s' ih hupd).1

/-- C9: in every reachable server state the registry ids are pairwise
distinct, every id ever assigned is distinct from every other and below the
`nextid` counter, and along any completed tick the set of ever-assigned ids
only grows: any id that appears freshly assigned equals the tick's starting
`nextid` and strictly exceeds every previously assigned id — so an id is
never assigned twice, even after its client disconnects. -/
theorem C9_id_assignment (s : ServerState) (hs : Reachable s) :
    (s.live.Nodup ∧ (assignedIds s).Nodup ∧ ∀ id ∈ assignedIds s, id < s.nextid) ∧
    (∀ (env : Env) (s' : ServerState), update env s = Except.ok s' →
      (∀ id ∈ assignedIds s, id ∈ assignedIds s') ∧
      (∀ id ∈ assignedIds s', id ∉ assignedIds s →
        (∀ j ∈ assignedIds s, j < id) ∧ id = s.nextid)) := by
  obtain ⟨h1, h2, h3, h4⟩ := reachable_inv s hs
  exact ⟨⟨h3, h2, h1⟩, fun env s' hupd =>
    (update_inv env s s' ⟨h1, h2, h3, h4⟩ hupd).2⟩

/-- C9 (witness): the claim evaluated at the initial state (reachable by
construction). -/
theorem C9_witness :
    (ServerState.init.live.Nodup ∧ (assignedIds ServerState.init).Nodup ∧
      ∀ id ∈ assignedIds ServerState.init, id < ServerState.init.nextid) ∧
    (∀ (env : Env) (s' : ServerState), update env ServerState.init = Except.ok s' →
      (∀ id ∈ assignedIds ServerState.init, id ∈ assignedIds s') ∧
      (∀ id ∈ assignedIds s', id ∉ assignedIds ServerState.init →
        (∀ j ∈ assignedIds ServerState.init, j < id) ∧
        id = ServerState.init.nextid)) :=
  C9_id_assignment ServerState.init Reachable.init

/-! ## Claim C8: write failures become disconnects -/

/-- C8: a write failure on a client's socket during `_attempt_send` (probe
or message alike) yields exactly one `PlayerLeft` event for that client,
removes the id from the registry (so a snapshot taken by any later loop in
the same tick no longer contains it), records the attempted bytes, changes
nothing else — and `_attempt_send` never lets any error reach its caller. -/
theorem C8_write_failure_disconnects :
    (∀ (env : Env) (s : ServerState) (id : Nat) (data : String),
      id ∈ s.live → s.live.Nodup → env.sendOk id = false →
      attempt_send env s id data =
        Except.ok { s with trace := s.trace ++ [(id, data)],
                           live := s.live.erase id,
                           new_events := s.new_events ++ [Ev.playerLeft id] } ∧
      id ∉ s.live.erase id) ∧
    (∀ (env : Env) (s : ServerState) (id : Nat) (data : String) (e : PyErr),
      attempt_send env s id data ≠ Except.error e) := by
  constructor
  · intro env s id data hlive hnd hfail
    constructor
    · rw [attempt_send, if_pos hlive, if_neg (by simp [hfail]), handle_disconnect,
        if_pos hlive]
    · intro hx
      exact absurd ((List.Nodup.mem_erase_iff hnd).mp hx).1 (by simp)
  · intro env s id data e
    rcases attempt_send_ok env s id data with ⟨t, ht⟩
    rw [ht]
    intro hx
    exact Except.noConfusion hx

/-- C8 (witness): the failing-send environment applied to the one-client
fixture. -/
theorem C8_witness :
    attempt_send staleEnv oneClientState 0 "x" =
      Except.ok { oneClientState with
        trace := oneClientState.trace ++ [(0, "x")],
        live := oneClientState.live.erase 0,
        new_events := oneClientState.new_events ++ [Ev.playerLeft 0] } ∧
    (0 : Nat) ∉ oneClientState.live.erase 0 :=
  C8_write_failure_disconnects.1 staleEnv oneClientState 0 "x"
    (by decide) (by decide) rfl

/-! ## Claim C6: double-buffered events -/

/-- C6: events appended during a tick are invisible to the projections until
`update` completes: the three projections read only the current buffer
(`events`), so changing the pending buffer does not affect them.  When
`update` returns, the current buffer holds exactly the events accumulated
during the tick (whatever was pending at the start of the tick followed by
the events the tick appended), it fully replaces the previous tick's events
(the result's `events` does not depend on the prior `events` value), and the
pending buffer is empty. -/
theorem C6_double_buffering (env : Env) (s s' : ServerState)
    (h : update env s = Except.ok s') :
    s'.new_events = [] ∧
    (∃ δ, s'.events = s.new_events ++ δ) ∧
    (∀ e s'', update env (setEvents s e) = Except.ok s'' →
      s''.events = s'.events ∧ s''.new_events = []) ∧
    (∀ p, get_new_players { s with new_events := p } = get_new_players s) ∧
    (∀ p, get_disconnected_players { s with new_events := p }
      = get_disconnected_players s) ∧
    (∀ p, get_commands { s with new_events := p } = get_commands s) := by
  cases hrc : runChecks env s with
  | error er =>
      rw [update, hrc, exceptMapError] at h
      simp at h
  | ok t =>
      rw [update, hrc, exceptMapOk] at h
      injection h with h'
      subst h'
      refine ⟨rfl, ?_, ?_, fun p => rfl, fun p => rfl, fun p => rfl⟩
      · rcases runChecks_mono env s t hrc with ⟨δ, hδ⟩
        exact ⟨δ, hδ⟩
      · intro e s'' h''
        rw [update, runChecks_setEvents, hrc, exceptMapOk, exceptMapOk] at h''
        injection h'' with h2
        subst h2
        exact ⟨rfl, rfl⟩

/-- C6 (witness): the claim evaluated on the quiet environment and the
initial state, where the tick returns the initial state again. -/
theorem C6_witness :
    ServerState.init.new_events = [] ∧
    (∃ δ, ServerState.init.events = ServerState.init.new_events ++ δ) ∧
    (∀ e s'', update baseEnv (setEvents ServerState.init e) = Except.ok s'' →
      s''.events = ServerState.init.events ∧ s''.new_events = []) ∧
    (∀ p, get_new_players { ServerState.init with new_events := p }
      = get_new_players ServerState.init) ∧
    (∀ p, get_disconnected_players { ServerState.init with new_events := p }
      = get_disconnected_players ServerState.init) ∧
    (∀ p, get_commands { ServerState.init with new_events := p }
      = get_commands ServerState.init) :=
  C6_double_buffering baseEnv ServerState.init ServerState.init (by decide)

/-! ## Claim C5: empty completed lines -/

/-- An environment in which client sockets are readable and `recv` yields a
lone newline. -/
def newlineEnv : Env :=
  { baseEnv with recvReadable := fun _ => true, recvData := fun _ => some "\n" }

/-- C5 (counterexample): a named client with an empty carry-over buffer
receiving the chunk `"\n"` produces NO event at all during `update`: the
completed line is the empty string, which fails the `if message:`
truthiness test, so no `Command` event with empty verb and remainder is
appended. -/
theorem C5_counterexample :
    ((update newlineEnv oneClientState).map fun t => t.events) = Except.ok [] ∧
    (Except.ok ([] : List Ev) : Except PyErr (List Ev)) ≠
      Except.ok [Ev.command 0 "" ""] := by
  constructor
  · decide
  · decide

/-- C5 (amended): for a named client with an empty carry-over buffer, a
chunk consisting of a lone `"\n"` appends no event (the empty completed
line is dropped by the truthiness test); a `Command` event with empty verb
and empty remainder arises only when the completed line is non-empty
whitespace, e.g. the chunk `" \n"`. -/
theorem C5_amended (env : Env) (s : ServerState) (id : Nat) (cl : Client)
    (hcl : s.heap.lookup id = some cl) (hnamed : cl.named = true)
    (hbuf : cl.buffer = "") (hr : env.recvReadable id = true) :
    (env.recvData id = some "\n" →
      msg_step env s id = Except.ok (heapSet s id fun c => { c with buffer := "" }) ∧
      (heapSet s id fun c => { c with buffer := "" }).new_events = s.new_events) ∧
    (env.recvData id = some " \n" →
      msg_step env s id =
        Except.ok { (heapSet s id fun c => { c with buffer := "" }) with
          new_events := s.new_events ++ [Ev.command id "" ""] }) := by
  constructor
  · intro hdata
    have hp : process_sent_data "" "\n" = (some "", "") := by decide
    refine ⟨?_, rfl⟩
    simp [msg_step, hcl, hr, hdata, hbuf, hp]
  · intro hdata
    have hp : process_sent_data "" " \n" = (some " ", "") := by decide
    have hne : ¬(" " : String) = "" := by decide
    have hs : pyStrip " " = "" := by decide
    have hsp : splitCommand "" = ("", "") := by decide
    have hl : pyLower "" = "" := by decide
    simp [msg_step, hcl, hr, hdata, hbuf, hp, hne, hnamed, hs, hsp, hl, heapSet]

/-- C5 (witness): the amended claim evaluated on the one-client fixture and
the lone-newline environment. -/
theorem C5_amended_witness :
    (newlineEnv.recvData 0 = some "\n" →
      msg_step newlineEnv oneClientState 0 =
        Except.ok (heapSet oneClientState 0 fun c => { c with buffer := "" }) ∧
      (heapSet oneClientState 0 fun c => { c with buffer := "" }).new_events =
        oneClientState.new_events) ∧
    (newlineEnv.recvData 0 = some " \n" →
      msg_step newlineEnv oneClientState 0 =
        Except.ok { (heapSet oneClientState 0 fun c => { c with buffer := "" }) with
          new_events := oneClientState.new_events ++ [Ev.command 0 "" ""] }) :=
  C5_amended newlineEnv oneClientState 0 clientNamed (by decide) rfl rfl rfl

end KalMUD
